import Mathlib

/-!
Verification of the portfolio rebalancing core (`src/models/stock.py`,
`src/models/trade.py`, `src/models/portfolio.py`).

Modelling choices:
* Python `float` values are embedded as exact rationals `ℚ`; Python `int`
  as `ℤ`.
* Python `dict` (which iterates in insertion order) is embedded as an
  association list `List (String × α)`; `alistLookup` is `d[k]` returning
  `none` where Python would raise `KeyError`.
* Python's `round` (round half to even on integers) is `roundHalfEven`.
* A Python function that can raise is embedded with `Except String` /
  `Option`, the raised `ValueError` message carried as the error string.
-/

namespace Fintual

/-- Lookup in an association list: the embedding of Python `d[k]` /
`d.get(k)` for a dict `d`, first binding wins. -/
def alistLookup {α : Type} : List (String × α) → String → Option α
  | [], _ => none
  | (k, v) :: rest, s => if k = s then some v else alistLookup rest s

/-- The keys of an association list, in insertion order (Python
`list(d)` / iteration order of a dict). -/
def keys {α : Type} (l : List (String × α)) : List String :=
  l.map Prod.fst

/-- The values of an association list (Python `d.values()`). -/
def values {α : Type} (l : List (String × α)) : List α :=
  l.map Prod.snd

/-- Sum of the values of an association list over `ℚ`
(Python `sum(d.values())`). -/
def sumValues {α : Type} (f : α → ℚ) (l : List (String × α)) : ℚ :=
  (l.map fun x => f x.2).sum

/-- Python's native `round` on a real value: round to the nearest
integer, ties to even (banker's rounding), as used at
`portfolio.py:63`. -/
def roundHalfEven (q : ℚ) : ℤ :=
  let n := ⌊q⌋
  let frac := q - (n : ℚ)
  if frac < 1/2 then n
  else if 1/2 < frac then n + 1
  else if n % 2 = 0 then n else n + 1

/-- Dataclass `Stock` (src/models/stock.py): a holding with ticker symbol, share
count and last known price (price defaults to 0.0 in the source). -/
structure Stock where
  symbol : String
  shares : ℚ
  last_price : ℚ
  deriving Repr, DecidableEq

/-- Method `Stock.market_value` (stock.py): `shares * last_price`. -/
def Stock.market_value (s : Stock) : ℚ :=
  s.shares * s.last_price

/-- Method `Stock.update_price` (stock.py): sets `last_price` to the given
price; the only mutator in the code base, embedded functionally. -/
def Stock.update_price (s : Stock) (price : ℚ) : Stock :=
  { s with last_price := price }

/-- Dataclass `Trade` (src/models/trade.py): an order to trade shares, positive =
buy, negative = sell. -/
structure Trade where
  symbol : String
  shares : ℤ
  deriving Repr, DecidableEq

/-- The `action` string computed in `Trade.__str__` (trade.py):
`"BUY" if self.shares > 0 else "SELL"`. -/
def Trade.action (t : Trade) : String :=
  if 0 < t.shares then "BUY" else "SELL"

/-- Method producing the string representation of a trade (trade.py):
the action label, the absolute share count, and the symbol. -/
def Trade.str (t : Trade) : String :=
  t.action ++ " " ++ toString t.shares.natAbs ++ " shares of " ++ t.symbol

/-- Class `Portfolio` (src/models/portfolio.py): holdings dict and target
allocation dict, both keyed by ticker. -/
structure Portfolio where
  holdings : List (String × Stock)
  target_alloc : List (String × ℚ)
  deriving Repr, DecidableEq

/-- Key-set equality check `set(holdings) == set(target_alloc)` of
`Portfolio.__init__` (portfolio.py:17), as a Bool. -/
def keySetEqb {α β : Type} (h : List (String × α)) (t : List (String × β)) : Bool :=
  (keys h).all (fun s => decide (s ∈ keys t)) &&
    (keys t).all (fun s => decide (s ∈ keys h))

/-- Constructor `Portfolio.__init__` (portfolio.py:14-21): validates that target
weights sum to 1.0 within 1e-6, then that holdings and target
allocation have the same key set; raises `ValueError` otherwise,
stores both dicts on success. -/
def Portfolio.init (holdings : List (String × Stock))
    (target_alloc : List (String × ℚ)) : Except String Portfolio :=
  if ¬ (|sumValues id target_alloc - 1| < 1/1000000) then
    .error ("Target allocations must sum to 1.0")
  else if ¬ (keySetEqb holdings target_alloc = true) then
    .error ("Holdings symbols and target allocation symbols must match")
  else
    .ok ⟨holdings, target_alloc⟩

/-- Method `Portfolio.total_value` (portfolio.py:23-30): sum of the market
values of all holdings. -/
def Portfolio.total_value (p : Portfolio) : ℚ :=
  sumValues Stock.market_value p.holdings

/-- Method `Portfolio.current_allocations` (portfolio.py:32-46): each ticker's
market value divided by total value, or 0 for every ticker when the
total is zero. -/
def Portfolio.current_allocations (p : Portfolio) : List (String × ℚ) :=
  let total := p.total_value
  if total = 0 then
    p.holdings.map fun x => (x.1, 0)
  else
    p.holdings.map fun x => (x.1, x.2.market_value / total)

/-- The loop body of `Portfolio.get_rebalancing_trades`
(portfolio.py:53-66): iterate the target allocation in insertion
order; look the symbol up in holdings (`KeyError` = `none`); skip
tickers with zero price; round the share difference half-to-even and
keep it only when its absolute value is at least 1. -/
def rebalLoop (holdings : List (String × Stock)) (total : ℚ) :
    List (String × ℚ) → Option (List Trade)
  | [] => some []
  | (symbol, target_weight) :: rest =>
    match alistLookup holdings symbol with
    | none => none
    | some stock =>
      let current_value := stock.market_value
      let target_value := total * target_weight
      let price := stock.last_price
      if price = 0 then rebalLoop holdings total rest
      else
        let shares_diff := (target_value - current_value) / price
        let shares_diff_int := roundHalfEven shares_diff
        match rebalLoop holdings total rest with
        | none => none
        | some ts =>
          if 1 ≤ |shares_diff_int| then
            some (Trade.mk symbol shares_diff_int :: ts)
          else
            some ts

/-- Method `Portfolio.get_rebalancing_trades` (portfolio.py:48-67). Here `none`
models an uncaught `KeyError` (impossible for a validated portfolio). -/
def Portfolio.get_rebalancing_trades (p : Portfolio) : Option (List Trade) :=
  rebalLoop p.holdings p.total_value p.target_alloc

/-- State-passing reading of `get_rebalancing_trades`: the method body
(portfolio.py:48-67) only reads `self` — it assigns no attribute of
`self`, of any held `Stock`, and calls no mutator — so the state it
returns is the state it received. -/
def Portfolio.get_rebalancing_trades_run (p : Portfolio) :
    Option (List Trade) × Portfolio :=
  (p.get_rebalancing_trades, p)

/-- Builder state `StockBuilder` (src/models/stock.py:36-44): `_symbol` and
`_shares` start unset (`None`), `_last_price` starts at 0.0. -/
structure StockBuilder where
  symbol : Option String
  shares : Option ℚ
  last_price : ℚ
  deriving Repr, DecidableEq

/-- Constructor `StockBuilder.__init__` (stock.py:41-44). -/
def StockBuilder.new : StockBuilder :=
  ⟨none, none, 0⟩

/-- Method `StockBuilder.with_symbol` (stock.py:46-49): stores the upper-cased
symbol. -/
def StockBuilder.with_symbol (b : StockBuilder) (s : String) : StockBuilder :=
  { b with symbol := some s.toUpper }

/-- Method `StockBuilder.with_shares` (stock.py:51-56): raises `ValueError` on a
negative share count. -/
def StockBuilder.with_shares (b : StockBuilder) (sh : ℚ) :
    Except String StockBuilder :=
  if sh < 0 then .error ("Number of shares cannot be negative")
  else .ok { b with shares := some sh }

/-- Method `StockBuilder.with_price` (stock.py:58-63): raises `ValueError` on a
negative price. -/
def StockBuilder.with_price (b : StockBuilder) (pr : ℚ) :
    Except String StockBuilder :=
  if pr < 0 then .error ("Price cannot be negative")
  else .ok { b with last_price := pr }

/-- Method `StockBuilder.build` (stock.py:65-81): `if not self._symbol` is true
for both an unset symbol and an empty string; `if self._shares is None`
only for an unset share count. -/
def StockBuilder.build (b : StockBuilder) : Except String Stock :=
  match b.symbol with
  | none => .error ("Stock symbol is required")
  | some s =>
    if s = "" then .error ("Stock symbol is required")
    else
      match b.shares with
      | none => .error ("Number of shares is required")
      | some sh => .ok ⟨s, sh, b.last_price⟩

/-- The full builder pipeline used to construct a holding: apply
`with_symbol` / `with_shares` / `with_price` for each supplied field
(in the source's call order, as in `main.py`), then `build`. -/
def buildStock (symbol : Option String) (shares : Option ℚ)
    (price : Option ℚ) : Except String Stock :=
  let b₀ := StockBuilder.new
  let b₁ := match symbol with
    | none => b₀
    | some s => b₀.with_symbol s
  match (match shares with
         | none => .ok b₁
         | some sh => b₁.with_shares sh : Except String StockBuilder) with
  | .error e => .error e
  | .ok b₂ =>
    match (match price with
           | none => .ok b₂
           | some pr => b₂.with_price pr : Except String StockBuilder) with
    | .error e => .error e
    | .ok b₃ => b₃.build

/-- The trade the loop body of `get_rebalancing_trades` emits for one
entry of the target allocation, `none` when the entry is skipped
(missing holding, zero price, or rounded difference smaller than one
share). -/
def tradeFor (holdings : List (String × Stock)) (total : ℚ) (x : String × ℚ) :
    Option Trade :=
  match alistLookup holdings x.1 with
  | none => none
  | some st =>
    if st.last_price = 0 then none
    else
      let d := roundHalfEven ((total * x.2 - st.market_value) / st.last_price)
      if 1 ≤ |d| then some (Trade.mk x.1 d) else none

/-- The claim's description of `get_rebalancing_trades`, written from
the spec's words: walk the target allocation in key order and keep,
for each ticker whose holding has a nonzero last price, the trade for
the rounded share difference when its magnitude is at least 1. -/
def rebalancingTradesSpec (p : Portfolio) : List Trade :=
  p.target_alloc.filterMap (tradeFor p.holdings p.total_value)

/-- The worked example of spec §8 / `main.py`: META 50 shares at 300,
AAPL 30 at 150, GOOGL 20 at 100, targets 30% / 40% / 30%. -/
def examplePortfolio : Portfolio :=
  ⟨[("META", ⟨"META", 50, 300⟩), ("AAPL", ⟨"AAPL", 30, 150⟩),
    ("GOOGL", ⟨"GOOGL", 20, 100⟩)],
   [("META", 3/10), ("AAPL", 4/10), ("GOOGL", 3/10)]⟩

/-- A portfolio with one zero-priced holding far from its target and one
normally priced holding. -/
def zeroPricePortfolio : Portfolio :=
  ⟨[("A", ⟨"A", 10, 0⟩), ("B", ⟨"B", 2, 100⟩)],
   [("A", 1/2), ("B", 1/2)]⟩

/-- A portfolio in which no price was ever refreshed: every holding still
has the default `last_price = 0`. -/
def allZeroPortfolio : Portfolio :=
  ⟨[("A", ⟨"A", 50, 0⟩), ("B", ⟨"B", 7, 0⟩)], [("A", 3/4), ("B", 1/4)]⟩

/-! ### Helper lemmas -/

theorem alistLookup_mem {α : Type} {l : List (String × α)} {s : String} {v : α}
    (h : alistLookup l s = some v) : (s, v) ∈ l := by
  induction l with
  | nil => simp [alistLookup] at h
  | cons hd tl ih =>
    obtain ⟨k, w⟩ := hd
    simp only [alistLookup] at h
    by_cases hk : k = s
    · simp [hk] at h
      subst hk h
      exact List.mem_cons_self _ _
    · simp [hk] at h
      exact List.mem_cons_of_mem _ (ih h)

theorem mem_keys_lookup {α : Type} {l : List (String × α)} {s : String}
    (h : s ∈ keys l) : ∃ v, alistLookup l s = some v := by
  induction l with
  | nil => simp [keys] at h
  | cons hd tl ih =>
    obtain ⟨k, w⟩ := hd
    by_cases hk : k = s
    · exact ⟨w, by simp [alistLookup, hk]⟩
    · simp only [keys, List.map_cons, List.mem_cons] at h
      rcases h with h | h
      · exact absurd h.symm hk
      · obtain ⟨v, hv⟩ := ih h
        exact ⟨v, by simp [alistLookup, hk, hv]⟩

theorem lookup_of_mem_nodup {α : Type} {l : List (String × α)} {s : String} {v : α}
    (hmem : (s, v) ∈ l) (hnd : (keys l).Nodup) : alistLookup l s = some v := by
  induction l with
  | nil => simp at hmem
  | cons hd tl ih =>
    obtain ⟨k, w⟩ := hd
    simp only [keys, List.map_cons, List.nodup_cons] at hnd
    rcases List.mem_cons.mp hmem with h | h
    · have hk : k = s := (congrArg Prod.fst h).symm
      have hv : w = v := (congrArg Prod.snd h).symm
      simp [alistLookup, hk, hv]
    · have hk : k ≠ s := by
        intro hks
        subst hks
        exact hnd.1 (List.mem_map.mpr ⟨(k, v), h, rfl⟩)
      simp [alistLookup, hk, ih h hnd.2]

theorem keySetEqb_iff {α β : Type} (h : List (String × α)) (t : List (String × β)) :
    keySetEqb h t = true ↔ ∀ s, s ∈ keys h ↔ s ∈ keys t := by
  simp only [keySetEqb, Bool.and_eq_true, List.all_eq_true, decide_eq_true_eq]
  constructor
  · rintro ⟨h1, h2⟩ s
    exact ⟨fun hs => h1 s hs, fun hs => h2 s hs⟩
  · intro hiff
    exact ⟨fun s hs => (hiff s).mp hs, fun s hs => (hiff s).mpr hs⟩

theorem roundHalfEven_nonneg {q : ℚ} (hq : 0 ≤ q) : 0 ≤ roundHalfEven q := by
  unfold roundHalfEven
  have hfl : (0 : ℤ) ≤ ⌊q⌋ := Int.le_floor.mpr (by exact_mod_cast hq)
  dsimp only
  split
  · exact hfl
  · split
    · omega
    · split <;> omega

theorem roundHalfEven_nonpos {q : ℚ} (hq : q ≤ 0) : roundHalfEven q ≤ 0 := by
  unfold roundHalfEven
  have hfl : ⌊q⌋ ≤ 0 := by
    have := Int.floor_le q
    by_contra hc
    push_neg at hc
    have h1 : (1 : ℚ) ≤ (⌊q⌋ : ℚ) := by exact_mod_cast hc
    linarith
  dsimp only
  split
  · exact hfl
  · rename_i hlt
    push_neg at hlt
    split
    · rename_i hgt
      have hne : ⌊q⌋ ≠ 0 := by
        intro h0
        rw [h0] at hgt
        push_cast at hgt
        simp at hgt
        linarith
      omega
    · rename_i hgt
      push_neg at hgt
      have heq : q - (⌊q⌋ : ℚ) = 1/2 := le_antisymm hgt hlt
      have hne : ⌊q⌋ ≠ 0 := by
        intro h0
        rw [h0] at heq
        push_cast at heq
        linarith
      split <;> omega

theorem rebalLoop_eq_filterMap (holdings : List (String × Stock)) (total : ℚ)
    (alloc : List (String × ℚ)) (hk : ∀ s ∈ keys alloc, s ∈ keys holdings) :
    rebalLoop holdings total alloc = some (alloc.filterMap (tradeFor holdings total)) := by
  induction alloc with
  | nil => simp [rebalLoop]
  | cons hd rest ih =>
    obtain ⟨s, w⟩ := hd
    have hs : s ∈ keys holdings := hk s (by simp [keys])
    obtain ⟨stock, hl⟩ := mem_keys_lookup hs
    have hrest : ∀ x ∈ keys rest, x ∈ keys holdings := by
      intro x hx
      exact hk x (by simp [keys] at hx ⊢; exact Or.inr hx)
    have ihr := ih hrest
    by_cases hp : stock.last_price = 0
    · simp [rebalLoop, hl, hp, ihr, List.filterMap_cons, tradeFor]
    · simp only [rebalLoop, hl, if_neg hp, ihr, List.filterMap_cons, tradeFor]
      by_cases habs :
          1 ≤ |roundHalfEven ((total * w - stock.market_value) / stock.last_price)|
      · simp [habs]
      · simp [habs]

theorem rebalLoop_mem {holdings : List (String × Stock)} {total : ℚ}
    {alloc : List (String × ℚ)} {ts : List Trade} {t : Trade}
    (hres : rebalLoop holdings total alloc = some ts) (ht : t ∈ ts) :
    ∃ w st, (t.symbol, w) ∈ alloc ∧ alistLookup holdings t.symbol = some st ∧
      st.last_price ≠ 0 ∧
      t.shares = roundHalfEven ((total * w - st.market_value) / st.last_price) ∧
      1 ≤ |t.shares| := by
  induction alloc generalizing ts with
  | nil =>
    simp only [rebalLoop, Option.some.injEq] at hres
    subst hres
    simp at ht
  | cons hd rest ih =>
    obtain ⟨s, w⟩ := hd
    cases hl : alistLookup holdings s with
    | none => simp [rebalLoop, hl] at hres
    | some stock =>
      by_cases hp : stock.last_price = 0
      · simp only [rebalLoop, hl, if_pos hp] at hres
        obtain ⟨w', st, hmem, hlk, hp', hsh, habs⟩ := ih hres ht
        exact ⟨w', st, List.mem_cons_of_mem _ hmem, hlk, hp', hsh, habs⟩
      · simp only [rebalLoop, hl, if_neg hp] at hres
        cases hrec : rebalLoop holdings total rest with
        | none => rw [hrec] at hres; simp at hres
        | some ts' =>
          rw [hrec] at hres
          dsimp only at hres
          by_cases habs :
              1 ≤ |roundHalfEven ((total * w - stock.market_value) / stock.last_price)|
          · rw [if_pos habs, Option.some.injEq] at hres
            subst hres
            rcases List.mem_cons.mp ht with hth | hth
            · subst hth
              exact ⟨w, stock, List.mem_cons_self _ _, hl, hp, rfl, habs⟩
            · obtain ⟨w', st, hmem, hlk, hp', hsh, habs'⟩ := ih hrec hth
              exact ⟨w', st, List.mem_cons_of_mem _ hmem, hlk, hp', hsh, habs'⟩
          · rw [if_neg habs, Option.some.injEq] at hres
            subst hres
            obtain ⟨w', st, hmem, hlk, hp', hsh, habs'⟩ := ih hrec ht
            exact ⟨w', st, List.mem_cons_of_mem _ hmem, hlk, hp', hsh, habs'⟩

theorem roundHalfEven_pos_iff {q : ℚ} (hne : roundHalfEven q ≠ 0) :
    0 < roundHalfEven q ↔ 0 < q := by
  constructor
  · intro hr
    by_contra hq
    push_neg at hq
    have := roundHalfEven_nonpos hq
    omega
  · intro hq
    have := roundHalfEven_nonneg hq.le
    omega

theorem roundHalfEven_neg_iff {q : ℚ} (hne : roundHalfEven q ≠ 0) :
    roundHalfEven q < 0 ↔ q < 0 := by
  constructor
  · intro hr
    by_contra hq
    push_neg at hq
    have := roundHalfEven_nonneg hq
    omega
  · intro hq
    have := roundHalfEven_nonpos hq.le
    omega

theorem toUpper_eq_empty_iff (s : String) : s.toUpper = "" ↔ s = "" := by
  rw [String.toUpper, String.map_eq]
  constructor
  · intro h
    have hdata : s.data.map Char.toUpper = [] := congrArg String.data h
    have : s.data = [] := List.map_eq_nil_iff.mp hdata
    cases s
    simp_all
  · intro h
    subst h
    rfl

theorem rebalLoop_nil (holdings : List (String × Stock)) (total : ℚ) :
    rebalLoop holdings total [] = some [] := rfl

theorem rebalLoop_cons_skip {holdings : List (String × Stock)} {total : ℚ}
    {s : String} {w : ℚ} {rest : List (String × ℚ)} {st : Stock}
    (hl : alistLookup holdings s = some st) (hp : st.last_price = 0) :
    rebalLoop holdings total ((s, w) :: rest) = rebalLoop holdings total rest := by
  simp only [rebalLoop, hl, if_pos hp]

theorem rebalLoop_cons_emit {holdings : List (String × Stock)} {total : ℚ}
    {s : String} {w : ℚ} {rest : List (String × ℚ)} {st : Stock} {ts : List Trade}
    (hl : alistLookup holdings s = some st) (hp : st.last_price ≠ 0)
    (hrec : rebalLoop holdings total rest = some ts)
    (habs : 1 ≤ |roundHalfEven ((total * w - st.market_value) / st.last_price)|) :
    rebalLoop holdings total ((s, w) :: rest)
      = some (Trade.mk s
          (roundHalfEven ((total * w - st.market_value) / st.last_price)) :: ts) := by
  simp only [rebalLoop, hl, if_neg hp, hrec, if_pos habs]

theorem rebalLoop_cons_small {holdings : List (String × Stock)} {total : ℚ}
    {s : String} {w : ℚ} {rest : List (String × ℚ)} {st : Stock} {ts : List Trade}
    (hl : alistLookup holdings s = some st) (hp : st.last_price ≠ 0)
    (hrec : rebalLoop holdings total rest = some ts)
    (habs : ¬ 1 ≤ |roundHalfEven ((total * w - st.market_value) / st.last_price)|) :
    rebalLoop holdings total ((s, w) :: rest) = some ts := by
  simp only [rebalLoop, hl, if_neg hp, hrec, if_neg habs]

theorem examplePortfolio_total : examplePortfolio.total_value = 21500 := by
  norm_num [examplePortfolio, Portfolio.total_value, sumValues, Stock.market_value]

theorem examplePortfolio_trades :
    examplePortfolio.get_rebalancing_trades
      = some [⟨"META", -28⟩, ⟨"AAPL", 27⟩, ⟨"GOOGL", 44⟩] := by
  have hM : alistLookup examplePortfolio.holdings ("META")
      = some ⟨"META", 50, 300⟩ := by simp [examplePortfolio, alistLookup]
  have hA : alistLookup examplePortfolio.holdings ("AAPL")
      = some ⟨"AAPL", 30, 150⟩ := by simp [examplePortfolio, alistLookup]
  have hG : alistLookup examplePortfolio.holdings ("GOOGL")
      = some ⟨"GOOGL", 20, 100⟩ := by simp [examplePortfolio, alistLookup]
  have h1 : rebalLoop examplePortfolio.holdings 21500 [("GOOGL", 3/10)]
      = some [⟨"GOOGL", 44⟩] := by
    rw [rebalLoop_cons_emit hG (by norm_num) (rebalLoop_nil _ _)
      (by norm_num [roundHalfEven, Stock.market_value])]
    norm_num [roundHalfEven, Stock.market_value]
  have h2 : rebalLoop examplePortfolio.holdings 21500
      [("AAPL", 4/10), ("GOOGL", 3/10)]
      = some [⟨"AAPL", 27⟩, ⟨"GOOGL", 44⟩] := by
    rw [rebalLoop_cons_emit hA (by norm_num) h1
      (by norm_num [roundHalfEven, Stock.market_value])]
    norm_num [roundHalfEven, Stock.market_value]
  have h3 : rebalLoop examplePortfolio.holdings 21500
      [("META", 3/10), ("AAPL", 4/10), ("GOOGL", 3/10)]
      = some [⟨"META", -28⟩, ⟨"AAPL", 27⟩, ⟨"GOOGL", 44⟩] := by
    rw [rebalLoop_cons_emit hM (by norm_num) h2
      (by norm_num [roundHalfEven, Stock.market_value])]
    norm_num [roundHalfEven, Stock.market_value]
  show rebalLoop examplePortfolio.holdings examplePortfolio.total_value
    examplePortfolio.target_alloc = _
  rw [examplePortfolio_total]
  exact h3

theorem zeroPricePortfolio_total : zeroPricePortfolio.total_value = 200 := by
  norm_num [zeroPricePortfolio, Portfolio.total_value, sumValues, Stock.market_value]

theorem zeroPricePortfolio_trades :
    zeroPricePortfolio.get_rebalancing_trades = some [⟨"B", -1⟩] := by
  have hA : alistLookup zeroPricePortfolio.holdings ("A")
      = some ⟨"A", 10, 0⟩ := by simp [zeroPricePortfolio, alistLookup]
  have hB : alistLookup zeroPricePortfolio.holdings ("B")
      = some ⟨"B", 2, 100⟩ := by simp [zeroPricePortfolio, alistLookup]
  have h1 : rebalLoop zeroPricePortfolio.holdings 200 [("B", 1/2)]
      = some [⟨"B", -1⟩] := by
    rw [rebalLoop_cons_emit hB (by norm_num) (rebalLoop_nil _ _)
      (by norm_num [roundHalfEven, Stock.market_value])]
    norm_num [roundHalfEven, Stock.market_value]
  have h2 : rebalLoop zeroPricePortfolio.holdings 200 [("A", 1/2), ("B", 1/2)]
      = some [⟨"B", -1⟩] := by
    rw [rebalLoop_cons_skip hA rfl]
    exact h1
  show rebalLoop zeroPricePortfolio.holdings zeroPricePortfolio.total_value
    zeroPricePortfolio.target_alloc = _
  rw [zeroPricePortfolio_total]
  exact h2

/-! ### Claims -/

/-- C1: `get_rebalancing_trades` walks the target allocation in
insertion order and, for each ticker whose holding has a nonzero last
price, rounds `(totalValue ⬝ targetWeight − marketValue) / lastPrice`
half-to-even and emits the trade exactly when the rounded difference
has magnitude at least 1; the result is exactly that list, in target
key order. (The key-set hypothesis holds for every validated
portfolio; without it the lookup `self.holdings[symbol]` would raise
`KeyError`.) -/
theorem C1_rebalancing_trades_formula (p : Portfolio)
    (hk : ∀ s ∈ keys p.target_alloc, s ∈ keys p.holdings) :
    p.get_rebalancing_trades = some (rebalancingTradesSpec p) :=
  rebalLoop_eq_filterMap p.holdings p.total_value p.target_alloc hk

/-- Witness for C1 on the worked example of spec §8: sell 28 META, buy
27 AAPL, buy 44 GOOGL, in target-key order. -/
theorem C1_rebalancing_trades_formula_witness :
    examplePortfolio.get_rebalancing_trades
        = some (rebalancingTradesSpec examplePortfolio) ∧
      rebalancingTradesSpec examplePortfolio
        = [⟨"META", -28⟩, ⟨"AAPL", 27⟩, ⟨"GOOGL", 44⟩] :=
  ⟨C1_rebalancing_trades_formula examplePortfolio (by decide), by
    have h := C1_rebalancing_trades_formula examplePortfolio (by decide)
    rw [examplePortfolio_trades] at h
    exact (Option.some.injEq _ _ ▸ h).symm⟩

/-- C4: whenever the total value is positive, the current allocation
weights sum to exactly 1 (in exact arithmetic). -/
theorem C4_current_allocations_sum_one (p : Portfolio)
    (h : 0 < p.total_value) : sumValues id p.current_allocations = 1 := by
  have hne : p.total_value ≠ 0 := ne_of_gt h
  have hmap : (p.holdings.map fun x => x.2.market_value / p.total_value).sum
      = (p.holdings.map fun x => x.2.market_value).sum * (p.total_value)⁻¹ := by
    simp only [div_eq_mul_inv]
    exact List.sum_map_mul_right p.holdings (fun x => x.2.market_value) _
  have htot : (p.holdings.map fun x => x.2.market_value).sum = p.total_value := rfl
  calc sumValues id p.current_allocations
      = (p.holdings.map fun x => x.2.market_value / p.total_value).sum := by
        simp [sumValues, Portfolio.current_allocations, if_neg hne, List.map_map,
          Function.comp_def]
    _ = 1 := by rw [hmap, htot]; exact mul_inv_cancel₀ hne

/-- Witness for C4: the worked example has total value 21500 > 0 and
allocation weights 30/43 + 9/43 + 4/43 = 1. -/
theorem C4_current_allocations_sum_one_witness :
    0 < examplePortfolio.total_value ∧
      sumValues id examplePortfolio.current_allocations = 1 :=
  ⟨by norm_num [examplePortfolio, Portfolio.total_value, sumValues, Stock.market_value],
    C4_current_allocations_sum_one examplePortfolio
      (by norm_num [examplePortfolio, Portfolio.total_value, sumValues, Stock.market_value])⟩

/-- C6: `current_allocations` maps each ticker to
`marketValue / totalValue`, and to 0 when the total value is zero; it
is total (no division by zero is ever attempted: the zero-total branch
returns before dividing). -/
theorem C6_current_allocations_cases (p : Portfolio) :
    p.current_allocations = p.holdings.map fun x =>
      (x.1, if p.total_value = 0 then 0 else x.2.market_value / p.total_value) := by
  by_cases h : p.total_value = 0 <;>
    simp [Portfolio.current_allocations, h]

/-- C7: running `get_rebalancing_trades` twice in succession, with no
mutation in between, returns the same trade list both times, and the
call leaves the portfolio state unchanged (the method body performs no
assignment, so its state-passing reading returns its input state). -/
theorem C7_rebalancing_idempotent (p : Portfolio) :
    p.get_rebalancing_trades_run.2.get_rebalancing_trades_run.1
        = p.get_rebalancing_trades_run.1 ∧
      p.get_rebalancing_trades_run.2 = p :=
  ⟨rfl, rfl⟩

/-- C2: constructing a `Portfolio` raises `ValueError` exactly when the
key sets of holdings and target allocation differ or the target
weights miss 1.0 by at least the 1e-6 tolerance; on failure no
portfolio is produced (the result is an error value), and on success
the portfolio stores exactly the given holdings and target
allocation. -/
theorem C2_portfolio_init_validation (holdings : List (String × Stock))
    (target_alloc : List (String × ℚ)) :
    ((∃ e, Portfolio.init holdings target_alloc = .error e) ↔
      (¬ (∀ s, s ∈ keys holdings ↔ s ∈ keys target_alloc) ∨
        ¬ |sumValues id target_alloc - 1| < 1/1000000)) ∧
    (∀ p, Portfolio.init holdings target_alloc = .ok p →
      p.holdings = holdings ∧ p.target_alloc = target_alloc) := by
  have hks := keySetEqb_iff holdings target_alloc
  constructor
  · constructor
    · rintro ⟨e, he⟩
      unfold Portfolio.init at he
      split_ifs at he with h1 h2
      · exact Or.inl fun hall => h2 (hks.mpr hall)
      · exact Or.inr h1
    · intro h
      unfold Portfolio.init
      split_ifs with h1 h2 <;>
        first
          | exact ⟨_, rfl⟩
          | (exfalso
             rcases h with hkeys | hsum
             · exact hkeys (hks.mp h2)
             · exact hsum h1)
  · intro p hp
    unfold Portfolio.init at hp
    split_ifs at hp
    injection hp with h'
    rw [← h']
    exact ⟨rfl, rfl⟩

/-- Witness for C2: a weight sum of 0.99 fails, matching key sets with
weight sum exactly 1 succeed and store the given dicts. -/
theorem C2_portfolio_init_validation_witness :
    (∃ e, Portfolio.init [("A", ⟨"A", 1, 1⟩)] [("A", 99/100)] = .error e) ∧
      (∀ p, Portfolio.init [("A", ⟨"A", 1, 1⟩)] [("A", 1)] = .ok p →
        p.holdings = [("A", ⟨"A", 1, 1⟩)] ∧ p.target_alloc = [("A", 1)]) :=
  ⟨(C2_portfolio_init_validation [("A", ⟨"A", 1, 1⟩)] [("A", 99/100)]).1.mpr
      (Or.inr (by
        have hsv : sumValues id [(("A" : String), (99/100 : ℚ))] = 99/100 := by
          norm_num [sumValues]
        rw [hsv, show (99/100 : ℚ) - 1 = -(1/100) by norm_num, abs_neg,
          abs_of_nonneg (by norm_num : (0:ℚ) ≤ 1/100)]
        norm_num)),
    (C2_portfolio_init_validation [("A", ⟨"A", 1, 1⟩)] [("A", 1)]).2⟩

/-- C3: a ticker whose holding has last price 0 never appears among the
trades returned by `get_rebalancing_trades`, however large the value
gap, so the division by `lastPrice` never divides by zero. -/
theorem C3_zero_price_ticker_excluded (p : Portfolio) (s : String)
    (stock : Stock) (ts : List Trade)
    (hs : alistLookup p.holdings s = some stock)
    (hp : stock.last_price = 0)
    (hres : p.get_rebalancing_trades = some ts) :
    ∀ t ∈ ts, t.symbol ≠ s := by
  intro t ht heq
  obtain ⟨w, st, _, hlk, hp', _, _⟩ := rebalLoop_mem hres ht
  rw [heq, hs] at hlk
  injection hlk with h'
  exact hp' (h' ▸ hp)

/-- Witness for C3: in `zeroPricePortfolio` the zero-priced ticker A sits
at 0% versus a 50% target, yet the only emitted trade is for B. -/
theorem C3_zero_price_ticker_excluded_witness :
    Trade.symbol ⟨"B", -1⟩ ≠ "A" :=
  C3_zero_price_ticker_excluded zeroPricePortfolio ("A") ⟨"A", 10, 0⟩
    [⟨"B", -1⟩] (by simp [zeroPricePortfolio, alistLookup]) rfl
    zeroPricePortfolio_trades ⟨"B", -1⟩ (by decide)

/-- C5: every emitted trade's sign matches the sign of
`targetValue − currentValue` for its ticker: it is a buy exactly when
the target value exceeds the holding's market value and a sell exactly
when it falls short. (Prices are nonnegative per the data model;
uniqueness of target keys reflects Python dict keys.) -/
theorem C5_trade_sign_matches_value_gap (p : Portfolio) (ts : List Trade)
    (hnd : (keys p.target_alloc).Nodup)
    (hpos : ∀ x ∈ p.holdings, 0 ≤ x.2.last_price)
    (hres : p.get_rebalancing_trades = some ts) :
    ∀ t ∈ ts, ∃ st w, alistLookup p.holdings t.symbol = some st ∧
      alistLookup p.target_alloc t.symbol = some w ∧
      (0 < t.shares ↔ st.market_value < p.total_value * w) ∧
      (t.shares < 0 ↔ p.total_value * w < st.market_value) := by
  intro t ht
  obtain ⟨w, st, hmem, hlk, hp, hsh, habs⟩ := rebalLoop_mem hres ht
  have hw := lookup_of_mem_nodup hmem hnd
  have hp0 : 0 < st.last_price :=
    lt_of_le_of_ne (hpos _ (alistLookup_mem hlk)) (Ne.symm hp)
  have hne : t.shares ≠ 0 := by
    intro h0
    rw [h0] at habs
    simp at habs
  refine ⟨st, w, hlk, hw, ?_, ?_⟩
  · rw [hsh] at hne ⊢
    rw [roundHalfEven_pos_iff hne, lt_div_iff₀ hp0, zero_mul, sub_pos]
  · rw [hsh] at hne ⊢
    rw [roundHalfEven_neg_iff hne, div_lt_iff₀ hp0, zero_mul, sub_neg]

/-- Witness for C5 on the worked example: the META trade (−28 shares) is
a sell, and indeed META's target value 6450 is below its market value
15000. -/
theorem C5_trade_sign_matches_value_gap_witness :
    ∃ st w, alistLookup examplePortfolio.holdings (Trade.symbol ⟨"META", -28⟩)
        = some st ∧
      alistLookup examplePortfolio.target_alloc (Trade.symbol ⟨"META", -28⟩)
        = some w ∧
      (0 < Trade.shares ⟨"META", -28⟩ ↔
        st.market_value < examplePortfolio.total_value * w) ∧
      (Trade.shares ⟨"META", -28⟩ < 0 ↔
        examplePortfolio.total_value * w < st.market_value) :=
  C5_trade_sign_matches_value_gap examplePortfolio
    [⟨"META", -28⟩, ⟨"AAPL", 27⟩, ⟨"GOOGL", 44⟩] (by decide) (by decide)
    examplePortfolio_trades ⟨"META", -28⟩ (by decide)

/-- C9: a trade's action label is BUY exactly when its share count is
positive and SELL otherwise (including the zero case), and every trade
produced by `get_rebalancing_trades` has at least one share in
magnitude, so a zero-share trade is never constructed by the
rebalancing path. -/
theorem C9_label_and_min_magnitude :
    (∀ t : Trade, (t.action = "BUY" ↔ 0 < t.shares) ∧
      (t.action = "SELL" ↔ ¬ 0 < t.shares)) ∧
    (∀ (p : Portfolio) (ts : List Trade), p.get_rebalancing_trades = some ts →
      ∀ t ∈ ts, 1 ≤ |t.shares|) := by
  constructor
  · intro t
    unfold Trade.action
    by_cases h : 0 < t.shares <;> simp [h]
  · intro p ts hres t ht
    obtain ⟨_, _, _, _, _, _, habs⟩ := rebalLoop_mem hres ht
    exact habs

/-- Witness for C9: the example portfolio's trades all have magnitude at
least 1. -/
theorem C9_label_and_min_magnitude_witness :
    1 ≤ |Trade.shares ⟨"META", -28⟩| :=
  C9_label_and_min_magnitude.2 examplePortfolio
    [⟨"META", -28⟩, ⟨"AAPL", 27⟩, ⟨"GOOGL", 44⟩] examplePortfolio_trades
    ⟨"META", -28⟩ (by decide)

theorem buildStock_ok_iff (symbol : Option String) (shares price : Option ℚ)
    (st : Stock) :
    buildStock symbol shares price = .ok st ↔
      ∃ s q, symbol = some s ∧ s.toUpper ≠ "" ∧ shares = some q ∧ 0 ≤ q ∧
        (∀ r, price = some r → 0 ≤ r) ∧ st = ⟨s.toUpper, q, price.getD 0⟩ := by
  rcases symbol with _ | s
  · rcases shares with _ | q
    · rcases price with _ | r
      · simp [buildStock, StockBuilder.new, StockBuilder.build]
      · by_cases hr : r < 0 <;>
          simp [buildStock, StockBuilder.new, StockBuilder.with_price,
            StockBuilder.build, hr]
    · by_cases hq : q < 0
      · rcases price with _ | r <;>
          simp [buildStock, StockBuilder.new, StockBuilder.with_shares, hq,
            not_le.mpr hq]
      · rcases price with _ | r
        · simp [buildStock, StockBuilder.new, StockBuilder.with_shares, hq,
            StockBuilder.build]
        · by_cases hr : r < 0 <;>
            simp [buildStock, StockBuilder.new, StockBuilder.with_shares,
              StockBuilder.with_price, StockBuilder.build, hq, hr]
  · rcases shares with _ | q
    · rcases price with _ | r
      · simp only [buildStock, StockBuilder.new, StockBuilder.with_symbol,
          StockBuilder.build]
        split_ifs <;> simp
      · by_cases hr : r < 0
        · simp [buildStock, StockBuilder.new, StockBuilder.with_symbol,
            StockBuilder.with_price, hr]
        · simp only [buildStock, StockBuilder.new, StockBuilder.with_symbol,
            StockBuilder.with_price, StockBuilder.build, if_neg hr]
          split_ifs <;> simp
    · by_cases hq : q < 0
      · rcases price with _ | r <;>
          simp [buildStock, StockBuilder.new, StockBuilder.with_symbol,
            StockBuilder.with_shares, hq, not_le.mpr hq]
      · rcases price with _ | r
        · by_cases hs : s.toUpper = ""
          · simp [buildStock, StockBuilder.new, StockBuilder.with_symbol,
              StockBuilder.with_shares, StockBuilder.build, hq, hs]
          · simp [buildStock, StockBuilder.new, StockBuilder.with_symbol,
              StockBuilder.with_shares, StockBuilder.build, hq, not_lt.mp hq, hs,
              eq_comm]
            exact fun _ h => hs h.symm
        · by_cases hr : r < 0
          · simp [buildStock, StockBuilder.new, StockBuilder.with_symbol,
              StockBuilder.with_shares, StockBuilder.with_price, hq, hr,
              not_le.mpr hr]
          · by_cases hs : s.toUpper = ""
            · simp [buildStock, StockBuilder.new, StockBuilder.with_symbol,
                StockBuilder.with_shares, StockBuilder.with_price,
                StockBuilder.build, hq, hr, hs]
            · simp [buildStock, StockBuilder.new, StockBuilder.with_symbol,
                StockBuilder.with_shares, StockBuilder.with_price,
                StockBuilder.build, hq, not_lt.mp hq, hr, not_lt.mp hr, hs,
                eq_comm]
              exact fun _ h => hs h.symm

/-- C8 counterexample to the claim as stated: the ticker is nonempty and
the share count nonnegative, yet supplying the negative price −5 makes
the builder raise (in `with_price`), so construction does not succeed. -/
theorem C8_negative_price_fails :
    buildStock (some ("A")) (some 1) (some (-5))
        = .error ("Price cannot be negative") ∧
      ¬ ∃ st, buildStock (some ("A")) (some 1) (some (-5)) = .ok st := by
  constructor
  · simp [buildStock, StockBuilder.new, StockBuilder.with_symbol,
      StockBuilder.with_shares, StockBuilder.with_price]
    norm_num
  · rintro ⟨st, hst⟩
    obtain ⟨s, q, _, _, _, _, hpr, _⟩ := (buildStock_ok_iff _ _ _ _).mp hst
    have := hpr (-5) rfl
    norm_num at this

/-- C8 (amended): the builder pipeline fails exactly when the ticker is
empty or unset, the share count is negative or unset, or a supplied
price is negative; on success the stored ticker is the uppercase
normalization of the supplied symbol, and the stored shares and price
are the supplied values with the price defaulting to 0. -/
theorem C8_stock_builder_validation (symbol : Option String)
    (shares price : Option ℚ) :
    ((∃ st, buildStock symbol shares price = .ok st) ↔
      ((∃ s, symbol = some s ∧ s ≠ "") ∧ (∃ q, shares = some q ∧ 0 ≤ q) ∧
        (∀ r, price = some r → 0 ≤ r))) ∧
    (∀ st, buildStock symbol shares price = .ok st →
      ∃ s q, symbol = some s ∧ shares = some q ∧
        st = ⟨s.toUpper, q, price.getD 0⟩) := by
  constructor
  · constructor
    · rintro ⟨st, hst⟩
      obtain ⟨s, q, hs, hne, hq, hq0, hpr, _⟩ := (buildStock_ok_iff _ _ _ _).mp hst
      exact ⟨⟨s, hs, fun h => hne (by
        rw [h]; exact (toUpper_eq_empty_iff (String.mk [])).mpr rfl)⟩,
        ⟨q, hq, hq0⟩, hpr⟩
    · rintro ⟨⟨s, hs, hsne⟩, ⟨q, hq, hq0⟩, hpr⟩
      exact ⟨_, (buildStock_ok_iff _ _ _ _).mpr
        ⟨s, q, hs, fun h => hsne ((toUpper_eq_empty_iff s).mp h), hq, hq0, hpr,
          rfl⟩⟩
  · intro st hst
    obtain ⟨s, q, hs, _, hq, _, _, hst'⟩ := (buildStock_ok_iff _ _ _ _).mp hst
    exact ⟨s, q, hs, hq, hst'⟩

/-- Witness for C8: a lower-case symbol with nonnegative shares and
price builds successfully. -/
theorem C8_stock_builder_validation_witness :
    ∃ st, buildStock (some ("aapl")) (some 30) (some 150) = .ok st :=
  (C8_stock_builder_validation (some ("aapl")) (some 30) (some 150)).1.mpr
    ⟨⟨"aapl", rfl, by decide⟩, ⟨30, rfl, by norm_num⟩,
      fun r hr => by injection hr with h; rw [← h]; norm_num⟩

/-- C10: in a portfolio whose holdings all have the default price 0
(no price refresh ever succeeded), the total value is 0, every current
allocation is 0, and `get_rebalancing_trades` silently returns the
empty list instead of raising. -/
theorem C10_all_prices_zero_no_trades (p : Portfolio)
    (hz : ∀ x ∈ p.holdings, x.2.last_price = 0)
    (hk : ∀ s ∈ keys p.target_alloc, s ∈ keys p.holdings) :
    p.total_value = 0 ∧ (∀ x ∈ p.current_allocations, x.2 = 0) ∧
      p.get_rebalancing_trades = some [] := by
  have htot : p.total_value = 0 := by
    unfold Portfolio.total_value sumValues
    apply List.sum_eq_zero
    intro q hq
    simp only [List.mem_map] at hq
    obtain ⟨x, hx, rfl⟩ := hq
    rw [Stock.market_value, hz x hx, mul_zero]
  refine ⟨htot, ?_, ?_⟩
  · have hca : p.current_allocations = p.holdings.map fun y => (y.1, (0:ℚ)) := by
      unfold Portfolio.current_allocations
      simp [htot]
    intro x hx
    rw [hca] at hx
    obtain ⟨y, _, hy⟩ := List.mem_map.mp hx
    rw [← hy]
  · rw [Portfolio.get_rebalancing_trades,
      rebalLoop_eq_filterMap p.holdings p.total_value p.target_alloc hk]
    congr 1
    rw [List.filterMap_eq_nil_iff]
    intro x hx
    obtain ⟨st, hst⟩ :=
      mem_keys_lookup (hk x.1 (List.mem_map.mpr ⟨x, hx, rfl⟩))
    have hst0 : st.last_price = 0 := hz (x.1, st) (alistLookup_mem hst)
    simp [tradeFor, hst, hst0]

/-- Witness for C10: a two-holding portfolio with both prices still 0. -/
theorem C10_all_prices_zero_no_trades_witness :
    allZeroPortfolio.total_value = 0 ∧
      (∀ x ∈ allZeroPortfolio.current_allocations, x.2 = 0) ∧
      allZeroPortfolio.get_rebalancing_trades = some [] :=
  C10_all_prices_zero_no_trades allZeroPortfolio (by decide) (by decide)

end Fintual
